import Mathlib

/-!
A verification development for the tangram shader-program compiler
(`src/gl/gl_program.js`) and tile geometry build pipeline (`Tile`).

Shallow-embedding conventions:

* Shader source is represented as a `List String` of lines.  Every JS regex
  involved (`^...$` with the `m` flag) matches whole lines, so all regex
  operations are translated to line predicates and line-list rewriting.
  A `String` standing for a single line is assumed to contain no newline
  character (in the source these strings come from identifiers and scene
  configuration scalars).
* JS objects used as ordered string-keyed dictionaries are association lists
  `List (String × α)`; property assignment is `objInsert`, which updates an
  existing key in place (JS objects keep the original insertion position on
  overwrite) and appends new keys.
* Injection-point keys interpolated into `new RegExp(...)` are assumed free of
  regex metacharacters and of leading/trailing whitespace, as in the scene
  configurations that produce them; under that assumption the dynamic regex
  `^\s*#pragma\s+tangram:\s+<key>\s*$` is exactly `lineMatchesKeyPragma`.
-/

namespace Tangram

/-- JS `\s` restricted to characters that can occur inside one line. -/
def isWS (c : Char) : Bool := c = ' ' || c = '\t' || c = '\r'

/-- JS `\w`: `[A-Za-z0-9_]`. -/
def isWordChar (c : Char) : Bool :=
  ('a' ≤ c && c ≤ 'z') || ('A' ≤ c && c ≤ 'Z') || ('0' ≤ c && c ≤ '9') || c = '_'

/-- Drop leading whitespace characters (the `\s*` parts of the pragma regexes). -/
def dropWSChars : List Char → List Char
  | [] => []
  | c :: cs => if isWS c then dropWSChars cs else c :: cs

/-- Match a literal prefix, returning the remainder of the character list. -/
def stripPrefixChars : List Char → List Char → Option (List Char)
  | [], cs => some cs
  | _ :: _, [] => none
  | p :: ps, c :: cs => if c = p then stripPrefixChars ps cs else none

/-- Remove trailing whitespace (the `\s*$` part of the pragma regexes). -/
def dropTrailingWS (cs : List Char) : List Char :=
  ((cs.reverse).dropWhile isWS).reverse

/-- Parse `\s* "#pragma" \s+ "tangram:" \s+` at the start of a line and return
the remaining characters (the key part, trailing whitespace included).
Returns `none` when the line is not an injection-pragma line. -/
def pragmaRest (cs : List Char) : Option (List Char) :=
  match stripPrefixChars "#pragma".data (dropWSChars cs) with
  | none => none
  | some r₁ =>
    match r₁ with
    | [] => none
    | c :: cs₁ =>
      if isWS c then
        match stripPrefixChars "tangram:".data (dropWSChars cs₁) with
        | none => none
        | some r₂ =>
          match r₂ with
          | [] => none
          | c₂ :: cs₂ => if isWS c₂ then some (dropWSChars cs₂) else none
      else none

/-- The per-key injection regex of `GLProgram.compile`
(`'^\\s*#pragma\\s+tangram:\\s+' + key + '\\s*$'`), as a line predicate. -/
def lineMatchesKeyPragma (key line : String) : Bool :=
  match pragmaRest line.data with
  | none => false
  | some rest => dropTrailingWS rest = key.data

/-- The generic strip regex of `GLProgram.compile`
(`'^\\s*#pragma\\s+tangram:\\s+\\w+\\s*$'`, flags `gm`), as a line predicate:
the key part must be one or more word characters. -/
def isWordPragmaLine (line : String) : Bool :=
  match pragmaRest line.data with
  | none => false
  | some rest =>
    let w := rest.takeWhile isWordChar
    decide (w ≠ []) && (rest.dropWhile isWordChar).all isWS

/-- Replace the value stored under `k`, keeping the entry's position. -/
def replaceVal (m : List (String × α)) (k : String) (v : α) : List (String × α) :=
  match m with
  | [] => []
  | kv :: rest => (if kv.1 = k then (k, v) else kv) :: replaceVal rest k v

/-- JS object property assignment on an ordered association list: an existing
key is updated in place, a new key is appended. -/
def objInsert (m : List (String × α)) (k : String) (v : α) : List (String × α) :=
  if m.any (fun kv => kv.1 = k) then replaceVal m k v
  else m ++ [(k, v)]

/-- JS object property lookup. -/
def lookupKey (m : List (String × α)) (k : String) : Option α :=
  match m with
  | [] => none
  | (k', v) :: rest => if k' = k then some v else lookupKey rest k

theorem lookupKey_append (m₁ m₂ : List (String × α)) (k : String) :
    lookupKey (m₁ ++ m₂) k =
      match lookupKey m₁ k with
      | some v => some v
      | none => lookupKey m₂ k := by
  induction m₁ with
  | nil => simp [lookupKey]
  | cons kv rest ih =>
    by_cases hk : kv.1 = k
    · simp [lookupKey, hk]
    · simp [lookupKey, hk, ih]

theorem lookupKey_replaceVal_self (m : List (String × α)) (k : String) (v : α)
    (h : m.any (fun kv => kv.1 = k) = true) :
    lookupKey (replaceVal m k v) k = some v := by
  induction m with
  | nil => simp at h
  | cons kv rest ih =>
    simp only [replaceVal]
    by_cases hk : kv.1 = k
    · rw [if_pos hk]
      simp [lookupKey]
    · rw [if_neg hk]
      simp only [List.any_cons, Bool.or_eq_true, decide_eq_true_eq] at h
      rcases h with h | h
      · exact absurd h hk
      · simp only [lookupKey, hk, if_neg]
        exact ih h

theorem lookupKey_replaceVal_ne (m : List (String × α)) (k k' : String) (v : α)
    (h : k' ≠ k) : lookupKey (replaceVal m k v) k' = lookupKey m k' := by
  induction m with
  | nil => simp [replaceVal]
  | cons kv rest ih =>
    simp only [replaceVal]
    by_cases hk : kv.1 = k
    · rw [if_pos hk]
      simp only [lookupKey, Ne.symm h, if_neg, ih]
      rw [if_neg (show ¬kv.1 = k' by rw [hk]; exact Ne.symm h)]
      simp
    · rw [if_neg hk]
      simp only [lookupKey, ih]

theorem lookupKey_objInsert_self (m : List (String × α)) (k : String) (v : α) :
    lookupKey (objInsert m k v) k = some v := by
  unfold objInsert
  split
  · exact lookupKey_replaceVal_self m k v (by assumption)
  · rename_i h
    rw [lookupKey_append]
    have hnone : lookupKey m k = none := by
      induction m with
      | nil => simp [lookupKey]
      | cons kv rest ih =>
        simp only [List.any_cons, Bool.or_eq_true, decide_eq_true_eq] at h
        push_neg at h
        simp only [lookupKey, h.1, if_neg]
        exact ih (by simpa using h.2)
    simp [hnone, lookupKey]

theorem lookupKey_objInsert_ne (m : List (String × α)) (k k' : String) (v : α)
    (h : k' ≠ k) : lookupKey (objInsert m k v) k' = lookupKey m k' := by
  unfold objInsert
  split
  · exact lookupKey_replaceVal_ne m k k' v h
  · rw [lookupKey_append]
    cases hm : lookupKey m k' with
    | some w => simp
    | none => simp [lookupKey, Ne.symm h]

/-! ## Shader program data model (`gl_program.js`) -/

/-- A transform source snippet, as its list of lines (a JS string may be
multi-line). -/
abbrev Src := List String

/-- A `#define` value as stored in a defines table.  JS `false` means "skip",
`true` means a value-less define, an integer is printed with `toFixed(1)`, any
other value is printed with its string rendering (carried here directly). -/
inductive DefVal
  | b (v : Bool)
  | i (v : Int)
  | s (v : String)
deriving DecidableEq

/-- A transform-table value: a single source string or an array of them. -/
inductive TVal
  | single (src : Src)
  | multi (srcs : List Src)

/-- A dependent-uniform sample value; its shape determines the synthesized
GLSL type (scalar, vector, or texture sampler). -/
inductive UVal
  | num (v : Int)
  | vec (vs : List Int)
  | tex (texture : String)

/-- A JS value passed to a uniform setter: a number, an array (vectors,
matrices), or a string (texture names). -/
inductive GLVal
  | num (n : Int)
  | arr (ns : List Int)
  | str (s : String)
deriving DecidableEq

/-- A cached uniform binding (`this.uniforms[name]`). -/
structure Uniform where
  location : Option Nat := none
  method : String := ""
  values : List GLVal := []
deriving DecidableEq

/-- The pure part of a `GLProgram` instance: templates, per-program config and
the state mutated by `compile`. -/
structure GLProgram where
  defines : List (String × DefVal) := []
  transforms : List (String × TVal) := []
  dependent_uniforms : Option (List (String × UVal)) := none
  vertex_shader : List String := []
  fragment_shader : List String := []
  computed_vertex_shader : List String := []
  computed_fragment_shader : List String := []
  compiled : Bool := false
  compiling : Bool := false
  uniforms : List (String × Uniform) := []
  attribs : List (String × Nat) := []
  program : Option Nat := none
  texture_unit : Int := 0
  name : Option String := none
  id : Nat := 0

/-- Process-wide state used by `compile`: the global define/transform
registries (`GLProgram.defines` / `GLProgram.transforms`), the outcome of
`GL.updateProgram` (the external compile/link call), and the context's
uniform-location resolver. -/
structure Globals where
  defines : List (String × DefVal) := []
  transforms : List (String × TVal) := []
  linkOk : Bool := true
  getUniformLocation : String → Option Nat := fun _ => none

/-- The external `GLSL` helper module and the `strip-comments` package, which
are imported by `gl_program.js` but are not part of the sources under
verification.  `compile`/`ensureUniforms` are parameterized over them. -/
structure GLSLEnv where
  stripComments : List String → List String
  isUniformDefined : String → List String → Bool
  isSymbolReferenced : String → List String → Bool
  defineUniform : String → UVal → String

/-- `GLProgram.prototype.buildDefineList`: global defines first, then
program-specific defines (overriding on key collision, keeping the original
insertion position, as JS object assignment does). -/
def buildDefineList (gdefs pdefs : List (String × DefVal)) : List (String × DefVal) :=
  pdefs.foldl (fun acc kv => objInsert acc kv.1 kv.2)
    (gdefs.foldl (fun acc kv => objInsert acc kv.1 kv.2) [])

/-- `GLProgram.prototype.buildShaderTransformList`: every key is normalized to
an array; global entries first, then program entries appended. -/
def buildShaderTransformList (gtrans ptrans : List (String × TVal)) :
    List (String × List Src) :=
  ptrans.foldl
    (fun acc kv =>
      let cur := (lookupKey acc kv.1).getD []
      objInsert acc kv.1 (cur ++ match kv.2 with | .multi a => a | .single s => [s]))
    (gtrans.foldl
      (fun acc kv =>
        objInsert acc kv.1 (match kv.2 with | .multi a => a | .single s => [s]))
      [])

/-- `GLProgram.buildDefineString`, one rendered line per define. -/
def buildDefineString (defs : List (String × DefVal)) : List String :=
  defs.foldl
    (fun acc kv =>
      match kv.2 with
      | .b false => acc
      | .b true => acc ++ ["#define " ++ kv.1]
      | .i n => acc ++ ["#define " ++ kv.1 ++ " " ++ toString n ++ ".0"]
      | .s v => acc ++ ["#define " ++ kv.1 ++ " " ++ v])
    []

/-- `transform.reduce((prev, cur) => prev + "\n" + cur)` at line level: string
concatenation with a newline separator concatenates the line lists. -/
def joinSources (srcs : List Src) : Src := List.flatten srcs

/-- Does a shader contain the injection marker for `key`
(`shader.match(regexp) != null`)? -/
def hasMarker (key : String) (lines : List String) : Bool :=
  lines.any (lineMatchesKeyPragma key)

/-- `shader.replace(regexp, source)` for the per-key marker regex: without the
`g` flag only the first matching line is replaced. -/
def replaceFirstMarker (key : String) (source : Src) : List String → List String
  | [] => []
  | l :: ls =>
    if lineMatchesKeyPragma key l then source ++ ls
    else l :: replaceFirstMarker key source ls

/-- The clean-up step: `replace(/^\s*#pragma\s+tangram:\s+\w+\s*$/gm, '')`
blanks every remaining word-key marker line. -/
def blankPragmas (lines : List String) : List String :=
  lines.map (fun l => if isWordPragmaLine l then "" else l)

/-- JS `key.replace(' ', '_')`: only the first space is replaced. -/
def jsReplaceFirstSpaceChars : List Char → List Char
  | [] => []
  | c :: cs => if c = ' ' then '_' :: cs else c :: jsReplaceFirstSpaceChars cs

/-- JS `toUpperCase` (ASCII). -/
def jsToUpper (s : String) : String := String.mk (s.data.map Char.toUpper)

/-- The synthesized injection define:
`'TANGRAM_TRANSFORM_' + key.replace(' ', '_').toUpperCase()`. -/
def transformDefineName (key : String) : String :=
  "TANGRAM_TRANSFORM_" ++ jsToUpper (String.mk (jsReplaceFirstSpaceChars key.data))

/-- State threaded through the injection loop of `compile`. -/
structure InjSt where
  vs : List String
  fs : List String
  defs : List (String × DefVal)

/-- One iteration of the injection loop of `GLProgram.prototype.compile`
(lines 112-145).  The JS guard `if (!transform) continue` never fires, because
`buildShaderTransformList` always stores arrays and an empty array is truthy;
an empty array with a marker present reaches
`[].reduce((prev, cur) => ...)`, which throws a `TypeError`. -/
def injectOne (key : String) (tlist : List Src) (st : InjSt) : InjSt × Option String :=
  let iv := hasMarker key st.vs
  let ifr := hasMarker key st.fs
  if iv = false && ifr = false then (st, none)
  else
    match tlist with
    | [] => (st, some "TypeError: Reduce of empty array with no initial value")
    | t :: ts =>
      let source := joinSources (t :: ts)
      ({ vs := if iv then replaceFirstMarker key source st.vs else st.vs,
         fs := if ifr then replaceFirstMarker key source st.fs else st.fs,
         defs := objInsert st.defs (transformDefineName key) (.b true) }, none)

/-- The whole injection loop; an exception aborts it, keeping the mutations
made by the earlier iterations. -/
def injectTransforms : List (String × List Src) → InjSt → InjSt × Option String
  | [], st => (st, none)
  | kt :: rest, st =>
    match injectOne kt.1 kt.2 st with
    | (st', none) => injectTransforms rest st'
    | (st', some e) => (st', some e)

/-- The qualifying-uniform loop body of `ensureUniforms` for one shader: a
declaration is pushed for each dependent uniform that is referenced but not
declared in the (comment-stripped) source. -/
def uniformInjections (env : GLSLEnv) (us : List (String × UVal))
    (src : List String) : List String :=
  us.filterMap (fun nv =>
    if env.isUniformDefined nv.1 src = false && env.isSymbolReferenced nv.1 src then
      some (env.defineUniform nv.1 nv.2)
    else none)

/-- String concatenation of two line lists (no separator): the last line of
the first list merges with the first line of the second, exactly as
`vs_injections.join('\n') + this.computed_vertex_shader` does. -/
def strConcatLines : List String → List String → List String
  | [], ys => ys
  | [x], [] => [x]
  | [x], y :: ys => (x ++ y) :: ys
  | x :: xs, ys => x :: strConcatLines xs ys

/-- `GLProgram.prototype.ensureUniforms` (lines 243-285): detect missing
dependent-uniform declarations and prepend synthesized ones. -/
def ensureUniforms (env : GLSLEnv) (uniforms : Option (List (String × UVal)))
    (vs fs : List String) : List String × List String :=
  match uniforms with
  | none => (vs, fs)
  | some us =>
    let svs := env.stripComments vs
    let sfs := env.stripComments fs
    let vsInj := uniformInjections env us svs
    let fsInj := uniformInjections env us sfs
    (if vsInj.length > 0 then strConcatLines vsInj vs else vs,
     if fsInj.length > 0 then strConcatLines fsInj fs else fs)

/-- The program-identifying comment prepended by `compile`. -/
def programInfo (name : Option String) (id : Nat) : String :=
  match name with
  | some n => n ++ " / id " ++ toString id
  | none => "id " ++ toString id

/-- The source-composition pipeline of `GLProgram.prototype.compile`
(lines 93-164), from the pristine templates to the final computed sources;
`some e` reports the exception thrown by the injection loop, together with the
partially rewritten sources that `this` holds at that point. -/
def computeShaders (env : GLSLEnv) (g : Globals) (p : GLProgram) :
    (List String × List String) × Option String :=
  let defines := buildDefineList g.defines p.defines
  let transforms := buildShaderTransformList g.transforms p.transforms
  match injectTransforms transforms
      { vs := p.vertex_shader, fs := p.fragment_shader, defs := defines } with
  | (st, some e) => ((st.vs, st.fs), some e)
  | (st, none) =>
    let dlines := buildDefineString st.defs
    let (vs₄, fs₄) := ensureUniforms env p.dependent_uniforms
      (dlines ++ blankPragmas st.vs) (dlines ++ blankPragmas st.fs)
    let info := "// Program: " ++ programInfo p.name p.id
    ((info :: vs₄, info :: fs₄), none)

/-- `refreshUniforms` re-resolves every cached uniform location (the GL-side
value push has no effect on the modelled state). -/
def refreshUniformLocations (g : Globals) (us : List (String × Uniform)) :
    List (String × Uniform) :=
  us.map (fun nu => (nu.1, { nu.2 with location := g.getUniformLocation nu.1 }))

/-- `GLProgram.prototype.compile` as a state transformer; the `Option String`
is the exception it throws, if any.  On the reentrancy error nothing has been
mutated; on the injection `TypeError` the partial rewrites and the
`compiling := true` flag persist (the `try` only wraps `GL.updateProgram`); on
a link failure the computed sources are kept but the program is left
uncompiled. -/
def compileStep (env : GLSLEnv) (g : Globals) (p : GLProgram) :
    GLProgram × Option String :=
  if p.compiling then
    (p, some ("GLProgram.compile(): skipping for " ++ toString p.id ++
      " because already compiling"))
  else
    match computeShaders env g p with
    | ((vs, fs), some e) =>
      ({ p with compiling := true, compiled := false,
                computed_vertex_shader := vs, computed_fragment_shader := fs },
       some e)
    | ((vs, fs), none) =>
      if g.linkOk then
        ({ p with compiling := false, compiled := true,
                  computed_vertex_shader := vs, computed_fragment_shader := fs,
                  program := some p.id,
                  uniforms := refreshUniformLocations g p.uniforms,
                  attribs := [] }, none)
      else
        ({ p with compiling := false, compiled := false,
                  computed_vertex_shader := vs, computed_fragment_shader := fs,
                  program := none },
         some ("GLProgram.compile(): program " ++ toString p.id ++ " error"))

/-! ## Spec-modelled external GLSL helpers

`gl_program.js` imports `GLSL` (`glsl.js`) and the `strip-comments` package;
neither is among the sources under verification, so the particular member
functions below are modelled from the spec (§4.5 step 5) and only the
combinatorial structure of `ensureUniforms` itself comes from the source. -/

/-- Modelled from the spec: comment stripping (the external `strip-comments`
package); `//` line comments are removed, block comments are not modelled. -/
def stripLineCommentChars : List Char → List Char
  | [] => []
  | '/' :: '/' :: _ => []
  | c :: cs => c :: stripLineCommentChars cs

/-- Does `name` occur at the head of `rest` with a word boundary after it? -/
def identAt (name rest : List Char) : Bool :=
  match stripPrefixChars name rest with
  | none => false
  | some [] => true
  | some (c :: _) => !isWordChar c

/-- Does `name` occur in the line with word boundaries on both sides?
`prevWord` records whether the previous character was a word character. -/
def identOccursFrom (name : List Char) (prevWord : Bool) : List Char → Bool
  | [] => false
  | c :: cs =>
    ((!prevWord) && identAt name (c :: cs)) || identOccursFrom name (isWordChar c) cs

/-- Modelled from the spec: `GLSL.isSymbolReferenced` — the name is referenced
as an identifier somewhere in the (already comment-stripped) source. -/
def specIsSymbolReferenced (name : String) (src : List String) : Bool :=
  src.any (fun l => identOccursFrom name.data false l.data)

/-- Modelled from the spec: `GLSL.isUniformDefined` — some line declares a
uniform of the given name. -/
def specIsUniformDefined (name : String) (src : List String) : Bool :=
  src.any (fun l =>
    match stripPrefixChars "uniform".data (dropWSChars l.data) with
    | some (c :: rest) => isWS c && identOccursFrom name.data false rest
    | _ => false)

/-- Modelled from the spec: `GLSL.defineUniform` — synthesize a declaration
whose type is inferred from the sample value's shape: scalar makes a `float`,
an n-element array a `vecn`, a string (texture name) a `sampler2D`. -/
def specDefineUniform (name : String) : UVal → String
  | .num _ => "uniform float " ++ name ++ ";"
  | .vec vs => "uniform vec" ++ toString vs.length ++ " " ++ name ++ ";"
  | .tex _ => "uniform sampler2D " ++ name ++ ";"

/-- The spec-modelled instantiation of the external GLSL helper module. -/
def specGLSL : GLSLEnv where
  stripComments := fun ls => ls.map (fun l => String.mk (stripLineCommentChars l.data))
  isUniformDefined := specIsUniformDefined
  isSymbolReferenced := specIsSymbolReferenced
  defineUniform := specDefineUniform

/-! ## Uniform setting (`uniform` / `setUniforms` / `updateUniform`)

Graphics-context side effects are recorded as a trace of `GLCall`s, so that
"does not touch the graphics context" is the statement "the trace is empty".
The `GLProgram.current` use-cache is the `GLState` threaded alongside. -/

/-- An observable call into the graphics context. -/
inductive GLCall
  | getUniformLocation (uniform : String)
  | useProgram (id : Nat)
  | callUniform (method : String) (loc : Nat) (values : List GLVal)
  | bindTexture (texture : String) (unit : Int)
deriving DecidableEq

/-- The `GLProgram.current` cache (by program id). -/
structure GLState where
  current : Option Nat := none
deriving DecidableEq

/-- `GLProgram.prototype.use`. -/
def useFn (st : GLState) (p : GLProgram) : GLState × List GLCall :=
  if p.compiled = false then (st, [])
  else if st.current = some p.id then (st, [])
  else ({ current := some p.id }, [GLCall.useProgram p.id])

/-- `GLProgram.prototype.updateUniform`. -/
def updateUniformFn (st : GLState) (p : GLProgram) (name : String) :
    GLState × List GLCall :=
  if p.compiled = false then (st, [])
  else
    match lookupKey p.uniforms name with
    | none => (st, [])
    | some u =>
      match u.location with
      | none => (st, [])
      | some loc =>
        let uc := useFn st p
        (uc.1, uc.2 ++ [GLCall.callUniform u.method loc u.values])

/-- `GLProgram.prototype.uniform` (lines 336-348).  On an uncompiled program
the guard returns before anything is cached or any GL call is made. -/
def uniformFn (g : Globals) (st : GLState) (p : GLProgram)
    (method name : String) (values : List GLVal) :
    GLState × GLProgram × List GLCall :=
  if p.compiled = false then (st, p, [])
  else
    let u₀ := (lookupKey p.uniforms name).getD {}
    let locCalls : Option Nat × List GLCall :=
      match u₀.location with
      | some l => (some l, [])
      | none => (g.getUniformLocation name, [GLCall.getUniformLocation name])
    let u : Uniform :=
      { location := locCalls.1, method := "uniform" ++ method, values := values }
    let p' := { p with uniforms := objInsert p.uniforms name u }
    let uc := updateUniformFn st p' name
    (uc.1, p', locCalls.2 ++ uc.2)

/-- The texture name carried by a sampler uniform value. -/
def texNameOf : GLVal → String
  | .str s => s
  | _ => ""

/-- `GLProgram.prototype.setTextureUniform`; texture resolve-or-create and
`load` happen in the external `gl_texture` module, the observable effect is
the bind to the current texture unit. -/
def setTextureUniformFn (g : Globals) (st : GLState) (p : GLProgram)
    (uniform_name texture_name : String) :
    GLState × GLProgram × List GLCall :=
  let r := uniformFn g st p "1i" uniform_name [GLVal.num p.texture_unit]
  (r.1, { r.2.1 with texture_unit := r.2.1.texture_unit + 1 },
   GLCall.bindTexture texture_name p.texture_unit :: r.2.2)

/-- One uniform as produced by the external `GLSL.parseUniforms`. -/
structure ParsedUniform where
  name : String
  method : String
  type : String
  value : GLVal

/-- `GLProgram.prototype.setUniforms` (lines 288-319), parameterized over the
external `GLSL.parseUniforms`.  The uncompiled guard fires before the texture
unit is (re)set. -/
def setUniformsFn (parseUniforms : List (String × UVal) → List ParsedUniform)
    (g : Globals) (st : GLState) (p : GLProgram)
    (umap : List (String × UVal)) (texture_unit : Option Int) :
    GLState × GLProgram × List GLCall :=
  if p.compiled = false then (st, p, [])
  else
    let p := { p with texture_unit := match texture_unit with | some t => t | none => 0 }
    (parseUniforms umap).foldl
      (fun acc u =>
        if u.type = "sampler2D" then
          let r := setTextureUniformFn g acc.1 acc.2.1 u.name (texNameOf u.value)
          (r.1, r.2.1, acc.2.2 ++ r.2.2)
        else
          let r := uniformFn g acc.1 acc.2.1 u.method u.name [u.value]
          (r.1, r.2.1, acc.2.2 ++ r.2.2))
      (st, p, [])

/-! ## Tile geometry pipeline (`Tile`) -/

/-- A GeoJSON-style feature collection over an abstract feature type. -/
structure FeatureCollection (F : Type) where
  type : String
  features : List F

/-- The defined fallback `{ type: 'FeatureCollection', features: [] }`. -/
def emptyFC : FeatureCollection F := { type := "FeatureCollection", features := [] }

/-- The `filter` of a layer's geometry descriptor: a sub-layer name, a
transform function over the tile's raw layers, or anything else. -/
inductive SourceFilter (F : Type)
  | str (s : String)
  | fn (f : (String → Option (FeatureCollection F)) → Option (FeatureCollection F))
  | other

/-- A layer's geometry descriptor (only `filter` is read by the resolver). -/
structure GeomSource (F : Type) where
  filter : SourceFilter F

/-- The tile data read by the resolver: raw per-source layers by name
(a missing name is JS `undefined`). -/
structure TileRaw (F : Type) where
  layers : String → Option (FeatureCollection F)

/-- `Tile.getGeometryForSource` (lines 614-636). -/
def getGeometryForSource (tile : TileRaw F) (source : Option (GeomSource F)) :
    FeatureCollection F :=
  let geom : Option (FeatureCollection F) :=
    match source with
    | none => none
    | some s =>
      match s.filter with
      | .str name => tile.layers name
      | .fn f => f tile.layers
      | .other => none
  geom.getD emptyFC

/-- GeoJSON geometry kinds dispatched on by `buildGeometry`; `other` stands
for any unrecognized `geometry.type`, for which no branch emits anything. -/
inductive GeomKind
  | polygon | multiPolygon | lineString | multiLineString | point | multiPoint | other
deriving DecidableEq

/-- A feature as seen by the build loop: its geometry kind, an opaque payload
standing for coordinates/properties, and the `layer` name stamped on it. -/
structure Feature where
  geomKind : GeomKind
  data : Nat := 0
  layer : Option String := none
deriving DecidableEq

/-- A rule's `name`: a string, a function of the parse context, or absent. -/
inductive RuleName (Ctx : Type)
  | str (s : String)
  | fn (f : Ctx → Option String)
  | missing

/-- `style_name || StyleParser.defaults.style.name`: the empty string is falsy
in JS, so it also falls through to the default. -/
def resolveStyleName (ctx : Ctx) : RuleName Ctx → Option String
  | .str s => if s = "" then none else some s
  | .fn f => match f ctx with
    | some s => if s = "" then none else some s
    | none => none
  | .missing => none

/-- A matched rule as accumulated by `matchFeature`. -/
structure MatchedRule (Ctx : Type) where
  visible : Bool
  name : RuleName Ctx
  properties : Nat

/-- A parsed per-feature style; only `order` and `layer` are read by the
orchestrator itself. -/
structure FeatureStyle where
  order : Int
  layer : Int := 0
  payload : Nat := 0

/-- A render style as used by `buildGeometry`: name, parser and the
geometry-kind-specific vertex builders (external style classes). -/
structure Style (Ctx VItem : Type) where
  name : String
  parseFeature : Feature → MatchedRule Ctx → Ctx → Option FeatureStyle
  buildPolygons : Feature → FeatureStyle → List VItem
  buildLines : Feature → FeatureStyle → List VItem
  buildPoints : Feature → FeatureStyle → List VItem

/-- The geometry-type dispatch of `buildGeometry` (lines 572-589); the
single/multi coordinate wrapping is folded into the abstract builders, and an
unrecognized type matches no branch, emitting nothing. -/
def emitFeature (style : Style Ctx VItem) (f : Feature) (fs : FeatureStyle) :
    List VItem :=
  match f.geomKind with
  | .polygon => style.buildPolygons f fs
  | .multiPolygon => style.buildPolygons f fs
  | .lineString => style.buildLines f fs
  | .multiLineString => style.buildLines f fs
  | .point => style.buildPoints f fs
  | .multiPoint => style.buildPoints f fs
  | .other => []

/-- The external collaborators of `buildGeometry`: context construction
(`StyleParser.getFeatureParseContext`), the per-layer compiled rules, the
style registry (total, as in the source's usage) and
`StyleParser.defaults.style.name`. -/
structure BuildEnv (Ctx VItem : Type) where
  mkContext : Feature → Ctx
  setProps : Ctx → Nat → Ctx
  rules : String → List (Ctx → List (MatchedRule Ctx))
  styles : String → Style Ctx VItem
  defaultStyleName : String

/-- The per-tile accumulator: per-style vertex buffers, the running
`tile.order` range, and `tile.debug.features`. -/
structure BuildState (VItem : Type) where
  vertex_data : List (String × List VItem) := []
  order_min : Int
  order_max : Int
  features : Nat := 0

/-- The matched-rule collection loop: each rule of the feature's layer pushes
its matches into one shared list. -/
def matchedRulesFor (env : BuildEnv Ctx VItem) (layerName : String)
    (f : Feature) : List (MatchedRule Ctx) :=
  (env.rules layerName).foldl (fun acc r => acc ++ r (env.mkContext f)) []

/-- The body of the matched-rule render loop (lines 528-590) for one rule. -/
def applyRule (env : BuildEnv Ctx VItem) (f : Feature) (ctx : Ctx)
    (st : BuildState VItem) (rule : MatchedRule Ctx) : BuildState VItem :=
  if rule.visible = false then st
  else
    let ctx := env.setProps ctx rule.properties
    let sname := (resolveStyleName ctx rule.name).getD env.defaultStyleName
    let style := env.styles sname
    match style.parseFeature f rule ctx with
    | none => st
    | some fstyle =>
      let st := { st with
        order_min := if fstyle.order < st.order_min then fstyle.order else st.order_min,
        order_max := if fstyle.order > st.order_max then fstyle.order else st.order_max }
      let cur := (lookupKey st.vertex_data style.name).getD []
      let fstyle := { fstyle with layer := fstyle.order }
      { st with vertex_data :=
          objInsert st.vertex_data style.name (cur ++ emitFeature style f fstyle) }

/-- One iteration of the feature loop of `Tile.buildGeometry`: stamp the layer
name on the feature, match rules, render each matched rule, then increment
`tile.debug.features` unconditionally. -/
def processFeature (env : BuildEnv Ctx VItem) (layerName : String)
    (st : BuildState VItem) (f₀ : Feature) : BuildState VItem :=
  let f := { f₀ with layer := some layerName }
  let st₁ := (matchedRulesFor env layerName f).foldl
    (applyRule env f (env.mkContext f)) st
  { st₁ with features := st₁.features + 1 }

/-- A declared layer (only `geometry` is read by the orchestrator). -/
structure Layer (F : Type) where
  geometry : Option (GeomSource F)

/-- One iteration of the layer loop of `Tile.buildGeometry`: skip layers
without geometry, otherwise resolve the layer's geometry and process its
features in reverse order (top to bottom). -/
def processLayer (env : BuildEnv Ctx VItem) (tile : TileRaw Feature)
    (st : BuildState VItem) (nl : String × Layer Feature) : BuildState VItem :=
  match nl.2.geometry with
  | none => st
  | some gsrc =>
    (getGeometryForSource tile (some gsrc)).features.reverse.foldl
      (processFeature env nl.1) st

/-- `Tile.buildGeometry` (lines 491-609): iterate layers, skip those without
geometry, process each layer's features in reverse order.  `tile.debug.features`
starts at 0; the `tile.order` range is carried in. -/
def buildGeometry (env : BuildEnv Ctx VItem) (tile : TileRaw Feature)
    (layers : List (String × Layer Feature)) (order_min order_max : Int) :
    BuildState VItem :=
  layers.foldl (processLayer env tile)
    { vertex_data := [], order_min := order_min, order_max := order_max, features := 0 }

/-- The feature count `buildGeometry` is expected to reach: one per feature of
each layer that declares a geometry source. -/
def totalFeatures (tile : TileRaw Feature) (layers : List (String × Layer Feature)) : Nat :=
  (layers.map (fun nl =>
    match nl.2.geometry with
    | none => 0
    | some gsrc => (getGeometryForSource tile (some gsrc)).features.length)).sum

/-- `Tile.prototype.merge` (lines 724-731): copy every enumerable property of
`other` except `key` onto the tile (in-place mutation and `return this` are
modelled by returning the updated property map). -/
def mergeTile (t other : List (String × α)) : List (String × α) :=
  other.foldl (fun acc kv => if kv.1 = "key" then acc else objInsert acc kv.1 kv.2) t

/-! ## Supporting lemmas -/

theorem ws_not_word (c : Char) (h : isWS c = true) : isWordChar c = false := by
  simp only [isWS, Bool.or_eq_true, decide_eq_true_eq] at h
  rcases h with (h | h) | h <;> subst h <;> decide

theorem takeWhile_append_of_all (p : Char → Bool) (a b : List Char)
    (ha : ∀ c ∈ a, p c = true) : (a ++ b).takeWhile p = a ++ b.takeWhile p := by
  induction a with
  | nil => simp
  | cons c cs ih =>
    have hc : p c = true := ha c (by simp)
    simp only [List.cons_append, List.takeWhile_cons, hc, if_pos]
    rw [ih (fun x hx => ha x (by simp [hx]))]

theorem dropWhile_append_of_all (p : Char → Bool) (a b : List Char)
    (ha : ∀ c ∈ a, p c = true) : (a ++ b).dropWhile p = b.dropWhile p := by
  induction a with
  | nil => simp
  | cons c cs ih =>
    have hc : p c = true := ha c (by simp)
    simp only [List.cons_append, List.dropWhile_cons, hc, if_pos]
    exact ih (fun x hx => ha x (by simp [hx]))

theorem dropTrailingWS_split (rest : List Char) :
    rest = dropTrailingWS rest ++ (rest.reverse.takeWhile isWS).reverse ∧
    (∀ c ∈ (rest.reverse.takeWhile isWS).reverse, isWS c = true) := by
  constructor
  · unfold dropTrailingWS
    rw [← List.reverse_append, List.takeWhile_append_dropWhile, List.reverse_reverse]
  · intro c hc
    rw [List.mem_reverse] at hc
    exact List.mem_takeWhile_imp hc

theorem lineMatchesKeyPragma_eq_false_of_none (key line : String)
    (h : pragmaRest line.data = none) : lineMatchesKeyPragma key line = false := by
  simp [lineMatchesKeyPragma, h]

theorem isWordPragmaLine_eq_false_of_none (line : String)
    (h : pragmaRest line.data = none) : isWordPragmaLine line = false := by
  simp [isWordPragmaLine, h]

/-- If a line matches the dynamic per-key regex for a nonempty all-word-chars
key, it also matches the generic `\w+` strip regex. -/
theorem isWordPragmaLine_of_matches (key line : String)
    (hk1 : key.data ≠ []) (hk2 : ∀ c ∈ key.data, isWordChar c = true)
    (h : lineMatchesKeyPragma key line = true) : isWordPragmaLine line = true := by
  unfold lineMatchesKeyPragma at h
  cases hr : pragmaRest line.data with
  | none => rw [hr] at h; simp at h
  | some rest =>
    rw [hr] at h
    have heq : dropTrailingWS rest = key.data := by
      simpa using h
    obtain ⟨hsplit, hws⟩ := dropTrailingWS_split rest
    rw [heq] at hsplit
    unfold isWordPragmaLine
    rw [hr]
    have htake : rest.takeWhile isWordChar = key.data := by
      conv_lhs => rw [hsplit]
      rw [takeWhile_append_of_all _ _ _ hk2]
      have : (rest.reverse.takeWhile isWS).reverse.takeWhile isWordChar = [] := by
        cases hcase : (rest.reverse.takeWhile isWS).reverse with
        | nil => simp
        | cons c cs =>
          have : isWS c = true := hws c (by rw [hcase]; simp)
          simp [List.takeWhile_cons, ws_not_word c this]
      rw [this, List.append_nil]
    have hdrop : rest.dropWhile isWordChar = (rest.reverse.takeWhile isWS).reverse := by
      conv_lhs => rw [hsplit]
      rw [dropWhile_append_of_all _ _ _ hk2]
      cases hcase : (rest.reverse.takeWhile isWS).reverse with
      | nil => simp
      | cons c cs =>
        have hcws : isWS c = true := hws c (by rw [hcase]; simp)
        simp [List.dropWhile_cons, ws_not_word c hcws]
    simp only [htake, hdrop]
    rw [Bool.and_eq_true]
    exact ⟨by simpa using hk1, List.all_eq_true.mpr (fun c hc => hws c hc)⟩

/-- A line whose first character is neither whitespace nor `#` is not a
pragma line. -/
theorem pragmaRest_cons_not_ws_not_hash (c : Char) (cs : List Char)
    (h1 : isWS c = false) (h2 : c ≠ '#') : pragmaRest (c :: cs) = none := by
  unfold pragmaRest
  have hd : dropWSChars (c :: cs) = c :: cs := by
    unfold dropWSChars; rw [h1]; simp
  rw [hd]
  have hp : "#pragma".data = ['#', 'p', 'r', 'a', 'g', 'm', 'a'] := rfl
  rw [hp]
  simp [stripPrefixChars, h2]

theorem pragmaRest_define_start (s : String) :
    pragmaRest ("#define " ++ s).data = none := by
  rw [String.data_append]
  have h : "#define ".data = ['#', 'd', 'e', 'f', 'i', 'n', 'e', ' '] := rfl
  rw [h]
  rfl

theorem pragmaRest_comment_start (s : String) :
    pragmaRest ("// Program: " ++ s).data = none := by
  rw [String.data_append]
  have h : "// Program: ".data =
    ['/', '/', ' ', 'P', 'r', 'o', 'g', 'r', 'a', 'm', ':', ' '] := rfl
  rw [h]
  rfl

theorem blankPragmas_no_wordPragma (lines : List String) :
    ∀ l ∈ blankPragmas lines, isWordPragmaLine l = false := by
  intro l hl
  simp only [blankPragmas, List.mem_map] at hl
  obtain ⟨x, _, rfl⟩ := hl
  by_cases hw : isWordPragmaLine x
  · simp only [hw, if_pos]
    decide
  · have hw' : isWordPragmaLine x = false := by simpa using hw
    simp [hw']

/-- One line rendered for one define. -/
def defineLine (kv : String × DefVal) : List String :=
  match kv.2 with
  | .b false => []
  | .b true => ["#define " ++ kv.1]
  | .i n => ["#define " ++ kv.1 ++ " " ++ toString n ++ ".0"]
  | .s v => ["#define " ++ kv.1 ++ " " ++ v]

theorem buildDefineString_eq_flatMap (defs : List (String × DefVal)) :
    buildDefineString defs = defs.flatMap defineLine := by
  suffices h : ∀ acc, defs.foldl
      (fun acc kv =>
        match kv.2 with
        | .b false => acc
        | .b true => acc ++ ["#define " ++ kv.1]
        | .i n => acc ++ ["#define " ++ kv.1 ++ " " ++ toString n ++ ".0"]
        | .s v => acc ++ ["#define " ++ kv.1 ++ " " ++ v])
      acc = acc ++ defs.flatMap defineLine by
    simpa [buildDefineString] using h []
  induction defs with
  | nil => simp
  | cons kv rest ih =>
    intro acc
    cases hv : kv.2 with
    | b b₀ =>
      cases b₀ <;> simp [List.flatMap_cons, defineLine, hv, ih, List.append_assoc]
    | i n => simp [List.flatMap_cons, defineLine, hv, ih, List.append_assoc]
    | s v => simp [List.flatMap_cons, defineLine, hv, ih, List.append_assoc]

theorem buildDefineString_shape (defs : List (String × DefVal)) :
    ∀ l ∈ buildDefineString defs, ∃ s, l = "#define " ++ s := by
  intro l hl
  rw [buildDefineString_eq_flatMap] at hl
  rw [List.mem_flatMap] at hl
  obtain ⟨kv, _, hmem⟩ := hl
  unfold defineLine at hmem
  rcases kv with ⟨k, v⟩
  cases v with
  | b b₀ =>
    cases b₀
    · simp at hmem
    · simp only [List.mem_singleton] at hmem
      exact ⟨k, hmem⟩
  | i n =>
    simp only [List.mem_singleton] at hmem
    exact ⟨k ++ " " ++ toString n ++ ".0",
      by rw [hmem]; try simp [String.append_assoc]⟩
  | s v =>
    simp only [List.mem_singleton] at hmem
    exact ⟨k ++ " " ++ v, by rw [hmem]; try simp [String.append_assoc]⟩

theorem pragmaRest_uniform_head (cs : List Char) : pragmaRest ('u' :: cs) = none :=
  pragmaRest_cons_not_ws_not_hash 'u' cs (by decide) (by decide)

theorem strConcatLines_single (x : String) (ys : List String) :
    strConcatLines [x] ys =
      match ys with
      | [] => [x]
      | y :: ys' => (x ++ y) :: ys' := by
  cases ys <;> rfl

theorem strConcatLines_cons₂ (x x' : String) (xs ys : List String) :
    strConcatLines (x :: x' :: xs) ys = x :: strConcatLines (x' :: xs) ys := by
  cases ys <;> rfl

/-- Every line of a no-separator concatenation of two line lists is a line of
one of them or the merge of a last/first pair. -/
theorem mem_strConcatLines (xs ys : List String) (l : String)
    (h : l ∈ strConcatLines xs ys) :
    l ∈ xs ∨ l ∈ ys ∨ ∃ x ∈ xs, ∃ y ∈ ys, l = x ++ y := by
  induction xs with
  | nil => exact Or.inr (Or.inl h)
  | cons x xs ih =>
    cases xs with
    | nil =>
      cases ys with
      | nil =>
        rw [strConcatLines_single] at h
        exact Or.inl h
      | cons y ys' =>
        rw [strConcatLines_single] at h
        rcases List.mem_cons.mp h with rfl | h
        · exact Or.inr (Or.inr ⟨x, by simp, y, by simp, rfl⟩)
        · exact Or.inr (Or.inl (List.mem_cons_of_mem y h))
    | cons x' xs' =>
      rw [strConcatLines_cons₂] at h
      rcases List.mem_cons.mp h with rfl | h
      · exact Or.inl (by simp)
      · rcases ih h with h | h | ⟨a, ha, b, hb, rfl⟩
        · exact Or.inl (List.mem_cons_of_mem x h)
        · exact Or.inr (Or.inl h)
        · exact Or.inr (Or.inr ⟨a, List.mem_cons_of_mem x ha, b, hb, rfl⟩)

/-- Every injected line produced with the spec-modelled helpers is a
`defineUniform` output. -/
theorem mem_uniformInjections_spec (us : List (String × UVal))
    (src : List String) (l : String)
    (h : l ∈ uniformInjections specGLSL us src) :
    ∃ n v, l = specDefineUniform n v := by
  unfold uniformInjections at h
  rw [List.mem_filterMap] at h
  obtain ⟨nv, _, heq⟩ := h
  split at heq
  · exact ⟨nv.1, nv.2, (Option.some.inj heq).symm⟩
  · exact absurd heq (by simp)

/-- Every spec-modelled declaration line starts with the character `u`. -/
theorem specDefineUniform_head (n : String) (v : UVal) :
    ∃ cs, (specDefineUniform n v).data = 'u' :: cs := by
  cases v with
  | num k =>
    refine ⟨"niform float ".data ++ n.data ++ ";".data, ?_⟩
    show ("uniform float " ++ n ++ ";").data = _
    rw [String.data_append, String.data_append,
      show "uniform float ".data = 'u' :: "niform float ".data from rfl]
    simp [List.append_assoc]
  | vec vs =>
    refine ⟨"niform vec".data ++ (toString vs.length).data ++ " ".data ++
      n.data ++ ";".data, ?_⟩
    show ("uniform vec" ++ toString vs.length ++ " " ++ n ++ ";").data = _
    rw [String.data_append, String.data_append, String.data_append,
      String.data_append,
      show "uniform vec".data = 'u' :: "niform vec".data from rfl]
    simp [List.append_assoc]
  | tex t =>
    refine ⟨"niform sampler2D ".data ++ n.data ++ ";".data, ?_⟩
    show ("uniform sampler2D " ++ n ++ ";").data = _
    rw [String.data_append, String.data_append,
      show "uniform sampler2D ".data = 'u' :: "niform sampler2D ".data from rfl]
    simp [List.append_assoc]

/-- Prepending declaration lines (possibly merging the last one into the
first base line) only yields base lines or lines starting with `u`. -/
theorem mem_inj_concat (inj base : List String) (l : String)
    (hinj : ∀ x ∈ inj, ∃ n v, x = specDefineUniform n v)
    (h : l ∈ (if inj.length > 0 then strConcatLines inj base else base)) :
    l ∈ base ∨ ∃ cs, l.data = 'u' :: cs := by
  split at h
  · rcases mem_strConcatLines inj base l h with hx | hb | ⟨x, hx, y, _, rfl⟩
    · obtain ⟨n, v, rfl⟩ := hinj l hx
      exact Or.inr (specDefineUniform_head n v)
    · exact Or.inl hb
    · obtain ⟨n, v, rfl⟩ := hinj x hx
      obtain ⟨cs, hd⟩ := specDefineUniform_head n v
      refine Or.inr ⟨cs ++ y.data, ?_⟩
      rw [String.data_append, hd, List.cons_append]
  · exact Or.inl h

/-- Lines of the vertex shader after `ensureUniforms` with the spec-modelled
helpers: original lines, or injected declarations starting with `u`. -/
theorem mem_ensureUniforms_fst (uniforms : Option (List (String × UVal)))
    (vs fs : List String) (l : String)
    (h : l ∈ (ensureUniforms specGLSL uniforms vs fs).1) :
    l ∈ vs ∨ ∃ cs, l.data = 'u' :: cs := by
  cases uniforms with
  | none => exact Or.inl h
  | some us =>
    unfold ensureUniforms at h
    dsimp only at h
    exact mem_inj_concat _ vs l
      (fun x hx => mem_uniformInjections_spec us _ x hx) h

/-- Lines of the fragment shader after `ensureUniforms` with the spec-modelled
helpers: original lines, or injected declarations starting with `u`. -/
theorem mem_ensureUniforms_snd (uniforms : Option (List (String × UVal)))
    (vs fs : List String) (l : String)
    (h : l ∈ (ensureUniforms specGLSL uniforms vs fs).2) :
    l ∈ fs ∨ ∃ cs, l.data = 'u' :: cs := by
  cases uniforms with
  | none => exact Or.inl h
  | some us =>
    unfold ensureUniforms at h
    dsimp only at h
    exact mem_inj_concat _ fs l
      (fun x hx => mem_uniformInjections_spec us _ x hx) h

/-- Characterization of the first-occurrence marker replacement. -/
theorem replaceFirstMarker_spec (key : String) (source : Src) (ls : List String)
    (h : hasMarker key ls = true) :
    ∃ pre m post, ls = pre ++ m :: post ∧ lineMatchesKeyPragma key m = true ∧
      (∀ l ∈ pre, lineMatchesKeyPragma key l = false) ∧
      replaceFirstMarker key source ls = pre ++ source ++ post := by
  induction ls with
  | nil => simp [hasMarker] at h
  | cons l ls ih =>
    by_cases hl : lineMatchesKeyPragma key l = true
    · exact ⟨[], l, ls, by simp, hl, by simp, by simp [replaceFirstMarker, hl]⟩
    · have hl' : lineMatchesKeyPragma key l = false := by
        simpa using hl
      have h' : hasMarker key ls = true := by
        simp only [hasMarker, List.any_cons, hl', Bool.false_or] at h
        exact h
      obtain ⟨pre, m, post, he, hm, hpre, hr⟩ := ih h'
      refine ⟨l :: pre, m, post, by simp [he], hm, ?_, ?_⟩
      · intro x hx
        rcases List.mem_cons.mp hx with hx | hx
        · exact hx ▸ hl'
        · exact hpre x hx
      · simp [replaceFirstMarker, hl', hr]

theorem ensureUniforms_none (env : GLSLEnv) (vs fs : List String) :
    ensureUniforms env none vs fs = (vs, fs) := rfl

/-- The computed sources depend only on the templates and the config fields,
never on the previous computed sources or flags. -/
theorem computeShaders_congr (env : GLSLEnv) (g : Globals) (p q : GLProgram)
    (h1 : p.defines = q.defines) (h2 : p.transforms = q.transforms)
    (h3 : p.vertex_shader = q.vertex_shader)
    (h4 : p.fragment_shader = q.fragment_shader)
    (h5 : p.dependent_uniforms = q.dependent_uniforms)
    (h6 : p.name = q.name) (h7 : p.id = q.id) :
    computeShaders env g p = computeShaders env g q := by
  unfold computeShaders
  rw [h1, h2, h3, h4, h5, h6, h7]

/-- The state produced by a compile whose injection loop and link both
succeed. -/
def compiledState (g : Globals) (p : GLProgram) (vs fs : List String) : GLProgram :=
  { p with
    compiling := false,
    compiled := true,
    computed_vertex_shader := vs,
    computed_fragment_shader := fs,
    program := some p.id,
    uniforms := refreshUniformLocations g p.uniforms,
    attribs := [] }

/-- Straight-line evaluation of `compileStep` in the fully successful case. -/
theorem compileStep_of_computeShaders_ok (env : GLSLEnv) (g : Globals)
    (p : GLProgram) (vs fs : List String)
    (hc : p.compiling = false) (hl : g.linkOk = true)
    (hcs : computeShaders env g p = ((vs, fs), none)) :
    compileStep env g p = (compiledState g p vs fs, none) := by
  unfold compileStep
  rw [hc, hcs, hl]
  simp [compiledState]

/-- The successful-compile shape: the guard was down, the injection loop and
the link succeeded, and the resulting state is the input with fresh computed
sources and flags. -/
theorem compileStep_success_shape (env : GLSLEnv) (g : Globals)
    (p p₁ : GLProgram) (h : compileStep env g p = (p₁, none)) :
    p.compiling = false ∧ g.linkOk = true ∧
    ∃ vs fs, computeShaders env g p = ((vs, fs), none) ∧
      p₁ = compiledState g p vs fs := by
  unfold compileStep at h
  by_cases hc : p.compiling
  · rw [if_pos hc] at h
    simp at h
  · rw [if_neg hc] at h
    rcases hcs : computeShaders env g p with ⟨⟨vs, fs⟩, err⟩
    rw [hcs] at h
    cases err with
    | some e => simp at h
    | none =>
      dsimp only at h
      by_cases hl : g.linkOk
      · rw [if_pos hl] at h
        have hp₁ := congrArg Prod.fst h
        simp only at hp₁
        refine ⟨by simpa using hc, hl, vs, fs, rfl, ?_⟩
        rw [← hp₁]
        rfl
      · rw [if_neg hl] at h
        simp at h

/-- C6: compiling a program twice with the same program-level defines,
transforms and dependent uniforms and unchanged global registries yields
byte-identical computed vertex and fragment shader sources, because `compile`
restarts from the pristine templates
(`this.computed_vertex_shader = this.vertex_shader`). -/
theorem compile_twice_same_sources (env : GLSLEnv) (g : Globals)
    (p p₁ p₂ : GLProgram) (e : Option String)
    (h₁ : compileStep env g p = (p₁, none))
    (h₂ : compileStep env g p₁ = (p₂, e)) :
    p₂.computed_vertex_shader = p₁.computed_vertex_shader ∧
    p₂.computed_fragment_shader = p₁.computed_fragment_shader := by
  obtain ⟨hc, hl, vs, fs, hcs, hp₁⟩ := compileStep_success_shape env g p p₁ h₁
  have hc₁ : p₁.compiling = false := by rw [hp₁]; rfl
  have hv₁ : p₁.computed_vertex_shader = vs := by rw [hp₁]; rfl
  have hf₁ : p₁.computed_fragment_shader = fs := by rw [hp₁]; rfl
  have hcong : computeShaders env g p₁ = computeShaders env g p :=
    computeShaders_congr env g p₁ p (by rw [hp₁]; rfl) (by rw [hp₁]; rfl)
      (by rw [hp₁]; rfl) (by rw [hp₁]; rfl) (by rw [hp₁]; rfl)
      (by rw [hp₁]; rfl) (by rw [hp₁]; rfl)
  have h₂' := compileStep_of_computeShaders_ok env g p₁ vs fs hc₁ hl
    (hcong.trans hcs)
  rw [h₂'] at h₂
  have hp₂ := congrArg Prod.fst h₂
  simp only at hp₂
  rw [← hp₂, hv₁, hf₁]
  exact ⟨rfl, rfl⟩

/-- C7: calling `compile()` while a compile is already in progress
(`compiling = true`) throws immediately, leaving the program state — computed
sources and `compiled` flag included — entirely unmodified, with no queueing
or retry. -/
theorem compile_reentrant_rejected (env : GLSLEnv) (g : Globals) (p : GLProgram)
    (h : p.compiling = true) :
    compileStep env g p =
      (p, some ("GLProgram.compile(): skipping for " ++ toString p.id ++
        " because already compiling")) := by
  unfold compileStep
  rw [h]
  simp

/-- Witness for C7 at a concrete program. -/
theorem compile_reentrant_rejected_witness :
    compileStep specGLSL {} { compiling := true } =
      ({ compiling := true },
        some ("GLProgram.compile(): skipping for " ++
          toString (({ compiling := true } : GLProgram)).id ++
          " because already compiling")) :=
  compile_reentrant_rejected specGLSL {} { compiling := true } rfl

/-- Concrete registry for the C6 witness. -/
def c6g : Globals := { defines := [("FOO", DefVal.b true)] }

/-- Concrete program for the C6 witness. -/
def c6p : GLProgram := { vertex_shader := ["void main();"] }

/-- Witness for C6 at a concrete program and registry. -/
theorem compile_twice_same_sources_witness :
    (compileStep specGLSL c6g (compileStep specGLSL c6g c6p).1).1.computed_vertex_shader =
      (compileStep specGLSL c6g c6p).1.computed_vertex_shader :=
  (compile_twice_same_sources specGLSL c6g c6p (compileStep specGLSL c6g c6p).1
    (compileStep specGLSL c6g (compileStep specGLSL c6g c6p).1).1
    (compileStep specGLSL c6g (compileStep specGLSL c6g c6p).1).2
    rfl rfl).1

/-- C2 (code-bug evidence): after `GLProgram.removeTransform('globals')` the
global registry maps `'globals'` to `[]`.  Compiling a program whose vertex
template still contains the `globals` marker does not skip the key (the
`if (!transform)` guard never fires, `![]` being false in JS) and reaches
`[].reduce(...)`, which throws; compile aborts with the marker unprocessed and
the program stuck with `compiling = true`, instead of leaving the marker to
the strip step as the spec describes. -/
theorem empty_transform_list_marker_compile_throws :
    (compileStep specGLSL { transforms := [("globals", TVal.multi [])] }
        { vertex_shader := ["#pragma tangram: globals"] }).2 =
      some "TypeError: Reduce of empty array with no initial value" ∧
    (compileStep specGLSL { transforms := [("globals", TVal.multi [])] }
        { vertex_shader := ["#pragma tangram: globals"] }).1.computed_vertex_shader =
      ["#pragma tangram: globals"] ∧
    (compileStep specGLSL { transforms := [("globals", TVal.multi [])] }
        { vertex_shader := ["#pragma tangram: globals"] }).1.compiling = true := by
  decide

/-- C5 counterexample: for the injection-point key `"my key"`, the synthesized
define is named `TANGRAM_TRANSFORM_MY_KEY` (first space replaced by an
underscore before upper-casing), not `TANGRAM_TRANSFORM_MY KEY` as the claim's
"upper-cased key" wording would require. -/
theorem transform_define_name_cex :
    lookupKey ((injectOne "my key" [["vec3 c;"]]
        { vs := ["#pragma tangram: my key"], fs := [], defs := [] }).1.defs)
      "TANGRAM_TRANSFORM_MY KEY" = none ∧
    lookupKey ((injectOne "my key" [["vec3 c;"]]
        { vs := ["#pragma tangram: my key"], fs := [], defs := [] }).1.defs)
      "TANGRAM_TRANSFORM_MY_KEY" = some (DefVal.b true) := by
  decide

/-- C5 (amended): for a key with a non-empty merged transform list whose
marker appears in at least one shader, the injection loop iteration completes
without error; in each shader where the marker appears the first marker line
is replaced by the newline-joined transform sources (the other shader is left
unchanged); and a boolean define is recorded whose name is
`TANGRAM_TRANSFORM_` followed by the key with its first space replaced by an
underscore, upper-cased. -/
theorem injectOne_replaces_marker_and_defines (key : String) (tlist : List Src)
    (st : InjSt) (hne : tlist ≠ [])
    (hor : hasMarker key st.vs = true ∨ hasMarker key st.fs = true) :
    (injectOne key tlist st).2 = none ∧
    (hasMarker key st.vs = true →
      ∃ pre m post, st.vs = pre ++ m :: post ∧
        lineMatchesKeyPragma key m = true ∧
        (∀ l ∈ pre, lineMatchesKeyPragma key l = false) ∧
        (injectOne key tlist st).1.vs = pre ++ joinSources tlist ++ post) ∧
    (hasMarker key st.vs = false → (injectOne key tlist st).1.vs = st.vs) ∧
    (hasMarker key st.fs = true →
      ∃ pre m post, st.fs = pre ++ m :: post ∧
        lineMatchesKeyPragma key m = true ∧
        (∀ l ∈ pre, lineMatchesKeyPragma key l = false) ∧
        (injectOne key tlist st).1.fs = pre ++ joinSources tlist ++ post) ∧
    (hasMarker key st.fs = false → (injectOne key tlist st).1.fs = st.fs) ∧
    lookupKey (injectOne key tlist st).1.defs (transformDefineName key) =
      some (DefVal.b true) := by
  cases tlist with
  | nil => exact absurd rfl hne
  | cons t ts =>
    have hstep : injectOne key (t :: ts) st =
        ({ vs := if hasMarker key st.vs then
             replaceFirstMarker key (joinSources (t :: ts)) st.vs else st.vs,
           fs := if hasMarker key st.fs then
             replaceFirstMarker key (joinSources (t :: ts)) st.fs else st.fs,
           defs := objInsert st.defs (transformDefineName key) (.b true) },
         none) := by
      unfold injectOne
      rcases hor with hv | hf
      · rw [hv]
        simp
      · rw [hf]
        simp
    refine ⟨by rw [hstep], ?_, ?_, ?_, ?_, ?_⟩
    · intro hv
      obtain ⟨pre, m, post, he, hm, hpre, hr⟩ :=
        replaceFirstMarker_spec key (joinSources (t :: ts)) st.vs hv
      exact ⟨pre, m, post, he, hm, hpre, by rw [hstep]; simp [hv, hr]⟩
    · intro hv
      rw [hstep]
      simp [hv]
    · intro hf
      obtain ⟨pre, m, post, he, hm, hpre, hr⟩ :=
        replaceFirstMarker_spec key (joinSources (t :: ts)) st.fs hf
      exact ⟨pre, m, post, he, hm, hpre, by rw [hstep]; simp [hf, hr]⟩
    · intro hf
      rw [hstep]
      simp [hf]
    · rw [hstep]
      exact lookupKey_objInsert_self st.defs (transformDefineName key) (.b true)

/-- Concrete injection state for the C5 witness. -/
def c5st : InjSt := { vs := ["#pragma tangram: color"], fs := [], defs := [] }

/-- Witness for C5 at a concrete key, transform list and state. -/
theorem injectOne_replaces_marker_and_defines_witness :
    (injectOne "color" [["vec3 c;"]] c5st).2 = none ∧
    (hasMarker "color" c5st.vs = true →
      ∃ pre m post, c5st.vs = pre ++ m :: post ∧
        lineMatchesKeyPragma "color" m = true ∧
        (∀ l ∈ pre, lineMatchesKeyPragma "color" l = false) ∧
        (injectOne "color" [["vec3 c;"]] c5st).1.vs =
          pre ++ joinSources [["vec3 c;"]] ++ post) ∧
    (hasMarker "color" c5st.vs = false →
      (injectOne "color" [["vec3 c;"]] c5st).1.vs = c5st.vs) ∧
    (hasMarker "color" c5st.fs = true →
      ∃ pre m post, c5st.fs = pre ++ m :: post ∧
        lineMatchesKeyPragma "color" m = true ∧
        (∀ l ∈ pre, lineMatchesKeyPragma "color" l = false) ∧
        (injectOne "color" [["vec3 c;"]] c5st).1.fs =
          pre ++ joinSources [["vec3 c;"]] ++ post) ∧
    (hasMarker "color" c5st.fs = false →
      (injectOne "color" [["vec3 c;"]] c5st).1.fs = c5st.fs) ∧
    lookupKey (injectOne "color" [["vec3 c;"]] c5st).1.defs
      (transformDefineName "color") = some (DefVal.b true) :=
  injectOne_replaces_marker_and_defines "color" [["vec3 c;"]] c5st
    (by decide) (Or.inl (by decide))

/-- C3 counterexample: a marker whose key contains a space (`"my key"`) and
has no registered transform survives compilation — the strip regex only
removes `\w+` keys — so the computed vertex shader still contains a line of
the form `#pragma tangram: <key>`. -/
theorem nonword_key_marker_survives_cex :
    (compileStep specGLSL {} { vertex_shader := ["#pragma tangram: my key"] }).2 =
      none ∧
    ((compileStep specGLSL {}
        { vertex_shader := ["#pragma tangram: my key"] }).1.computed_vertex_shader.any
      (lineMatchesKeyPragma "my key")) = true := by
  decide

/-- The shape of the computed sources after a successful injection loop: the
identifying comment, then the `ensureUniforms` result over the defines block
and the stripped shader. -/
theorem computeShaders_success_parts (g : Globals) (p : GLProgram)
    (vsfs : List String × List String)
    (h : computeShaders specGLSL g p = (vsfs, none)) :
    ∃ st : InjSt,
      vsfs.1 = ("// Program: " ++ programInfo p.name p.id) ::
        (ensureUniforms specGLSL p.dependent_uniforms
          (buildDefineString st.defs ++ blankPragmas st.vs)
          (buildDefineString st.defs ++ blankPragmas st.fs)).1 ∧
      vsfs.2 = ("// Program: " ++ programInfo p.name p.id) ::
        (ensureUniforms specGLSL p.dependent_uniforms
          (buildDefineString st.defs ++ blankPragmas st.vs)
          (buildDefineString st.defs ++ blankPragmas st.fs)).2 := by
  unfold computeShaders at h
  dsimp only at h
  rcases hinj : injectTransforms (buildShaderTransformList g.transforms p.transforms)
      { vs := p.vertex_shader, fs := p.fragment_shader,
        defs := buildDefineList g.defines p.defines } with ⟨st, err⟩
  rw [hinj] at h
  cases err with
  | some e => simp at h
  | none =>
    dsimp only at h
    rcases hens : ensureUniforms specGLSL p.dependent_uniforms
        (buildDefineString st.defs ++ blankPragmas st.vs)
        (buildDefineString st.defs ++ blankPragmas st.fs) with ⟨v₄, f₄⟩
    rw [hens] at h
    dsimp only at h
    have hpair := congrArg Prod.fst h
    dsimp only at hpair
    exact ⟨st, by rw [← hpair, hens], by rw [← hpair, hens]⟩

/-- C3 (amended): after a successful `compile()`, the computed vertex and
fragment sources contain no line of the form `#pragma tangram: <key>` for any
key made of word characters (`[A-Za-z0-9_]`): markers with a registered
transform were substituted, every remaining word-key marker line was stripped,
and everything added afterwards (defines, synthesized uniform declarations,
the program comment) can never form a marker line.  (A marker whose key
contains other characters, e.g. a space, and has no transform can survive —
see the counterexample.) -/
theorem compile_strips_word_key_pragmas (g : Globals) (p p₁ : GLProgram)
    (hc : compileStep specGLSL g p = (p₁, none))
    (key : String) (hk1 : key.data ≠ [])
    (hk2 : ∀ c ∈ key.data, isWordChar c = true) :
    (∀ l ∈ p₁.computed_vertex_shader, lineMatchesKeyPragma key l = false) ∧
    (∀ l ∈ p₁.computed_fragment_shader, lineMatchesKeyPragma key l = false) := by
  obtain ⟨-, -, vs, fs, hcs, hp₁⟩ := compileStep_success_shape specGLSL g p p₁ hc
  obtain ⟨st, hv, hf⟩ := computeShaders_success_parts g p (vs, fs) hcs
  dsimp only at hv hf
  have hpv : p₁.computed_vertex_shader = vs := by rw [hp₁]; rfl
  have hpf : p₁.computed_fragment_shader = fs := by rw [hp₁]; rfl
  have hbase : ∀ (xs : List String) (l : String),
      l ∈ buildDefineString st.defs ++ blankPragmas xs →
      lineMatchesKeyPragma key l = false := by
    intro xs l hl
    rcases List.mem_append.mp hl with hl | hl
    · obtain ⟨s, rfl⟩ := buildDefineString_shape _ _ hl
      exact lineMatchesKeyPragma_eq_false_of_none key _ (pragmaRest_define_start s)
    · have hw := blankPragmas_no_wordPragma _ _ hl
      by_cases hmatch : lineMatchesKeyPragma key l = true
      · exact absurd (isWordPragmaLine_of_matches key l hk1 hk2 hmatch)
          (by simp [hw])
      · simpa using hmatch
  constructor
  · intro l hl
    rw [hpv, hv] at hl
    rcases List.mem_cons.mp hl with rfl | hl
    · exact lineMatchesKeyPragma_eq_false_of_none key _ (pragmaRest_comment_start _)
    · rcases mem_ensureUniforms_fst p.dependent_uniforms _ _ l hl with hl | ⟨cs, hd⟩
      · exact hbase st.vs l hl
      · apply lineMatchesKeyPragma_eq_false_of_none
        rw [hd]
        exact pragmaRest_uniform_head cs
  · intro l hl
    rw [hpf, hf] at hl
    rcases List.mem_cons.mp hl with rfl | hl
    · exact lineMatchesKeyPragma_eq_false_of_none key _ (pragmaRest_comment_start _)
    · rcases mem_ensureUniforms_snd p.dependent_uniforms _ _ l hl with hl | ⟨cs, hd⟩
      · exact hbase st.fs l hl
      · apply lineMatchesKeyPragma_eq_false_of_none
        rw [hd]
        exact pragmaRest_uniform_head cs

/-- Concrete program for the C3 witness: a word-key marker in the vertex
template and a dependent uniform referenced only by the fragment template. -/
def c3p : GLProgram :=
  { vertex_shader := ["#pragma tangram: globals"],
    fragment_shader := ["float d = u_x;"],
    dependent_uniforms := some [("u_x", UVal.num 1)] }

/-- Witness for C3 at a concrete program and key. -/
theorem compile_strips_word_key_pragmas_witness :
    (∀ l ∈ (compileStep specGLSL {} c3p).1.computed_vertex_shader,
      lineMatchesKeyPragma "globals" l = false) ∧
    (∀ l ∈ (compileStep specGLSL {} c3p).1.computed_fragment_shader,
      lineMatchesKeyPragma "globals" l = false) :=
  compile_strips_word_key_pragmas {} c3p (compileStep specGLSL {} c3p).1
    rfl "globals" (by decide) (by decide)

/-- C1 counterexample: setting a uniform on an uncompiled program records
nothing — `uniforms` stays empty (so nothing new is available for a later
compile's `refreshUniforms` to push), while also making no GL call. -/
theorem uncompiled_uniform_not_recorded_cex :
    (uniformFn {} {} { compiled := false } "1f" "u_x" [GLVal.num 5]).2.1.uniforms
      = [] ∧
    (uniformFn {} {} { compiled := false } "1f" "u_x" [GLVal.num 5]).2.2 = [] := by
  decide

/-- C1 (amended): on an uncompiled program, `uniform` and `setUniforms` return
without raising and without touching the graphics context (empty call trace),
but they are complete no-ops: the supplied values are not recorded in
`uniforms` (the guard returns before caching), so nothing from these calls can
be pushed by the next successful compile's `refreshUniforms`. -/
theorem uncompiled_uniform_setUniforms_noop
    (parse : List (String × UVal) → List ParsedUniform)
    (g : Globals) (st : GLState) (p : GLProgram) (method name : String)
    (values : List GLVal) (umap : List (String × UVal)) (tu : Option Int)
    (h : p.compiled = false) :
    uniformFn g st p method name values = (st, p, []) ∧
    setUniformsFn parse g st p umap tu = (st, p, []) := by
  constructor
  · unfold uniformFn
    rw [h]
    simp
  · unfold setUniformsFn
    rw [h]
    simp

/-- Witness for C1's amended statement at a concrete program. -/
theorem uncompiled_uniform_setUniforms_noop_witness :
    uniformFn {} {} { compiled := false } "3f" "u_color" [GLVal.num 1] =
      ({}, { compiled := false }, []) ∧
    setUniformsFn (fun _ => []) {} {} { compiled := false } [] none =
      ({}, { compiled := false }, []) :=
  uncompiled_uniform_setUniforms_noop (fun _ => []) {} {} { compiled := false }
    "3f" "u_color" [GLVal.num 1] [] none rfl

/-- C4: for a dependent uniform referenced (but not declared) in the fragment
shader only, `ensureUniforms` pushes exactly one synthesized declaration
(type inferred from the sample value's shape by the spec-modelled
`defineUniform`) for that entry — the injection list splits around exactly one
declaration — prepends the fragment injections ahead of everything already in
that shader (the defines block included, since `compile` calls this after
prepending the defines), and contributes nothing for this name to the vertex
shader. -/
theorem ensureUniforms_injects_single_decl
    (us₁ us₂ : List (String × UVal)) (name : String) (v : UVal)
    (vs fs : List String)
    (hdefF : specGLSL.isUniformDefined name (specGLSL.stripComments fs) = false)
    (hrefF : specGLSL.isSymbolReferenced name (specGLSL.stripComments fs) = true)
    (hrefV : specGLSL.isSymbolReferenced name (specGLSL.stripComments vs) = false) :
    uniformInjections specGLSL (us₁ ++ (name, v) :: us₂)
        (specGLSL.stripComments fs) =
      uniformInjections specGLSL us₁ (specGLSL.stripComments fs) ++
        specDefineUniform name v ::
          uniformInjections specGLSL us₂ (specGLSL.stripComments fs) ∧
    uniformInjections specGLSL (us₁ ++ (name, v) :: us₂)
        (specGLSL.stripComments vs) =
      uniformInjections specGLSL us₁ (specGLSL.stripComments vs) ++
        uniformInjections specGLSL us₂ (specGLSL.stripComments vs) ∧
    (ensureUniforms specGLSL (some (us₁ ++ (name, v) :: us₂)) vs fs).2 =
      strConcatLines
        (uniformInjections specGLSL (us₁ ++ (name, v) :: us₂)
          (specGLSL.stripComments fs)) fs ∧
    (uniformInjections specGLSL (us₁ ++ (name, v) :: us₂)
        (specGLSL.stripComments vs) = [] →
      (ensureUniforms specGLSL (some (us₁ ++ (name, v) :: us₂)) vs fs).1 = vs) := by
  have hfs : uniformInjections specGLSL (us₁ ++ (name, v) :: us₂)
      (specGLSL.stripComments fs) =
    uniformInjections specGLSL us₁ (specGLSL.stripComments fs) ++
      specDefineUniform name v ::
        uniformInjections specGLSL us₂ (specGLSL.stripComments fs) := by
    unfold uniformInjections
    rw [List.filterMap_append, List.filterMap_cons]
    simp [hdefF, hrefF]
    rfl
  have hvs : uniformInjections specGLSL (us₁ ++ (name, v) :: us₂)
      (specGLSL.stripComments vs) =
    uniformInjections specGLSL us₁ (specGLSL.stripComments vs) ++
      uniformInjections specGLSL us₂ (specGLSL.stripComments vs) := by
    unfold uniformInjections
    rw [List.filterMap_append, List.filterMap_cons]
    simp [hrefV]
  refine ⟨hfs, hvs, ?_, ?_⟩
  · unfold ensureUniforms
    dsimp only
    rw [hfs]
    simp
  · intro hempty
    unfold ensureUniforms
    dsimp only
    rw [hempty]
    simp

/-- Concrete vertex source for the C4 witness (no `u_dot_scale` reference). -/
def c4vs : List String := ["float a;"]

/-- Concrete fragment source for the C4 witness (references `u_dot_scale`,
declares nothing). -/
def c4fs : List String := ["float d = u_dot_scale * 2.0;"]

/-- Witness for C4: `u_dot_scale` with a scalar sample value gets exactly one
`uniform float u_dot_scale;` declaration prepended to the fragment shader and
the vertex shader is untouched. -/
theorem ensureUniforms_injects_single_decl_witness :
    (ensureUniforms specGLSL (some [("u_dot_scale", UVal.num 0)]) c4vs c4fs).2 =
      ["uniform float u_dot_scale;" ++ "float d = u_dot_scale * 2.0;"] ∧
    (ensureUniforms specGLSL (some [("u_dot_scale", UVal.num 0)]) c4vs c4fs).1 =
      c4vs := by
  have h := ensureUniforms_injects_single_decl [] [] "u_dot_scale" (UVal.num 0)
    c4vs c4fs (by decide) (by decide) (by decide)
  exact ⟨h.2.2.1.trans (by decide), h.2.2.2 (by decide)⟩

/-- C8: the geometry-source resolver is total (it cannot throw: the filter
function is applied as-is and every missing case falls back), and it behaves
as specified: string filters look up the tile's sub-layer, function filters
apply the transform to the raw layers, and whenever nothing is found the
result is the empty `FeatureCollection`. -/
theorem getGeometryForSource_spec (F : Type) (tile : TileRaw F)
    (source : Option (GeomSource F)) :
    (source = none → getGeometryForSource tile source = emptyFC) ∧
    (∀ s, source = some { filter := SourceFilter.str s } →
      getGeometryForSource tile source = (tile.layers s).getD emptyFC) ∧
    (∀ f, source = some { filter := SourceFilter.fn f } →
      getGeometryForSource tile source = (f tile.layers).getD emptyFC) ∧
    (source = some { filter := SourceFilter.other } →
      getGeometryForSource tile source = emptyFC) := by
  refine ⟨?_, ?_, ?_, ?_⟩
  · rintro rfl
    rfl
  · rintro s rfl
    rfl
  · rintro f rfl
    rfl
  · rintro rfl
    rfl

/-- Concrete tile for the C8 witness: no layer holds any data. -/
def c8tile : TileRaw Nat := { layers := fun _ => none }

/-- Witness for C8: the `"roads"` filter on an empty tile yields the empty
feature collection, not an error. -/
theorem getGeometryForSource_spec_witness :
    getGeometryForSource c8tile (some { filter := SourceFilter.str "roads" }) =
      emptyFC :=
  ((getGeometryForSource_spec Nat c8tile
    (some { filter := SourceFilter.str "roads" })).2.1 "roads" rfl).trans rfl

theorem applyRule_features (env : BuildEnv Ctx VItem) (f : Feature) (ctx : Ctx)
    (st : BuildState VItem) (rule : MatchedRule Ctx) :
    (applyRule env f ctx st rule).features = st.features := by
  unfold applyRule
  split
  · rfl
  · dsimp only
    split
    · rfl
    · rfl

theorem foldl_applyRule_features (env : BuildEnv Ctx VItem) (f : Feature)
    (ctx : Ctx) (rules : List (MatchedRule Ctx)) (st : BuildState VItem) :
    (rules.foldl (applyRule env f ctx) st).features = st.features := by
  induction rules generalizing st with
  | nil => rfl
  | cons r rest ih => rw [List.foldl_cons, ih, applyRule_features]

theorem processFeature_features (env : BuildEnv Ctx VItem) (layerName : String)
    (st : BuildState VItem) (f : Feature) :
    (processFeature env layerName st f).features = st.features + 1 := by
  unfold processFeature
  dsimp only
  rw [foldl_applyRule_features]

theorem foldl_processFeature_features (env : BuildEnv Ctx VItem)
    (layerName : String) (fs : List Feature) (st : BuildState VItem) :
    (fs.foldl (processFeature env layerName) st).features =
      st.features + fs.length := by
  induction fs generalizing st with
  | nil => simp
  | cons f rest ih =>
    rw [List.foldl_cons, ih, processFeature_features]
    simp only [List.length_cons]
    omega

theorem processLayer_features (env : BuildEnv Ctx VItem) (tile : TileRaw Feature)
    (st : BuildState VItem) (nl : String × Layer Feature) :
    (processLayer env tile st nl).features = st.features +
      (match nl.2.geometry with
       | none => 0
       | some gsrc => (getGeometryForSource tile (some gsrc)).features.length) := by
  unfold processLayer
  cases hg : nl.2.geometry with
  | none => simp
  | some gsrc => rw [foldl_processFeature_features, List.length_reverse]

theorem foldl_processLayer_features (env : BuildEnv Ctx VItem)
    (tile : TileRaw Feature) (layers : List (String × Layer Feature))
    (st : BuildState VItem) :
    (layers.foldl (processLayer env tile) st).features =
      st.features + totalFeatures tile layers := by
  induction layers generalizing st with
  | nil => simp [totalFeatures]
  | cons nl rest ih =>
    rw [List.foldl_cons, ih, processLayer_features]
    unfold totalFeatures
    simp only [List.map_cons, List.sum_cons]
    omega

/-- C9: every feature processed by `buildGeometry` increments the tile's
debug feature counter by exactly one — when zero rules match, the feature
changes nothing else (no vertex data is emitted into any style's buffer) —
and consequently the final counter equals the total feature count over the
layers that declare geometry. -/
theorem buildGeometry_feature_counter (Ctx VItem : Type)
    (env : BuildEnv Ctx VItem) :
    (∀ (layerName : String) (st : BuildState VItem) (f : Feature),
      (processFeature env layerName st f).features = st.features + 1 ∧
      (matchedRulesFor env layerName { f with layer := some layerName } = [] →
        processFeature env layerName st f =
          { st with features := st.features + 1 })) ∧
    (∀ (tile : TileRaw Feature) (layers : List (String × Layer Feature))
        (omin omax : Int),
      (buildGeometry env tile layers omin omax).features =
        totalFeatures tile layers) := by
  constructor
  · intro layerName st f
    refine ⟨processFeature_features env layerName st f, ?_⟩
    intro hmatch
    unfold processFeature
    dsimp only
    rw [hmatch]
    rfl
  · intro tile layers omin omax
    unfold buildGeometry
    rw [foldl_processLayer_features]
    simp

/-- Concrete build environment for the C9 witness: no rules anywhere. -/
def c9env : BuildEnv Unit Unit :=
  { mkContext := fun _ => (),
    setProps := fun _ _ => (),
    rules := fun _ => [],
    styles := fun _ =>
      { name := "polygons",
        parseFeature := fun _ _ _ => none,
        buildPolygons := fun _ _ => [],
        buildLines := fun _ _ => [],
        buildPoints := fun _ _ => [] },
    defaultStyleName := "polygons" }

/-- Concrete build state for the C9 witness. -/
def c9st : BuildState Unit := { order_min := 0, order_max := 0 }

/-- Concrete feature for the C9 witness. -/
def c9f : Feature := { geomKind := GeomKind.point }

/-- Concrete tile for the C9 witness. -/
def c9tile : TileRaw Feature :=
  { layers := fun n =>
      if n = "roads" then
        some { type := "FeatureCollection", features := [{ geomKind := GeomKind.point }] }
      else none }

/-- Concrete layer list for the C9 witness. -/
def c9layers : List (String × Layer Feature) :=
  [("roads", { geometry := some { filter := SourceFilter.str "roads" } })]

/-- Witness for C9 at a concrete environment, tile and feature. -/
theorem buildGeometry_feature_counter_witness :
    ((processFeature c9env "roads" c9st c9f).features = c9st.features + 1 ∧
      (matchedRulesFor c9env "roads" { c9f with layer := some "roads" } = [] →
        processFeature c9env "roads" c9st c9f =
          { c9st with features := c9st.features + 1 })) ∧
    (buildGeometry c9env c9tile c9layers 0 0).features =
      totalFeatures c9tile c9layers := by
  have h := buildGeometry_feature_counter Unit Unit c9env
  exact ⟨h.1 "roads" c9st c9f, h.2 c9tile c9layers 0 0⟩

theorem mergeTile_cons (t : List (String × α)) (kv : String × α)
    (rest : List (String × α)) :
    mergeTile t (kv :: rest) =
      mergeTile (if kv.1 = "key" then t else objInsert t kv.1 kv.2) rest := rfl

theorem mergeTile_lookup_key (t other : List (String × α)) :
    lookupKey (mergeTile t other) "key" = lookupKey t "key" := by
  induction other generalizing t with
  | nil => rfl
  | cons kv rest ih =>
    rw [mergeTile_cons, ih]
    by_cases hk : kv.1 = "key"
    · rw [if_pos hk]
    · rw [if_neg hk]
      exact lookupKey_objInsert_ne t kv.1 "key" kv.2 (Ne.symm hk)

theorem mergeTile_lookup_not_mem (k : String) (t other : List (String × α))
    (h : ∀ kv ∈ other, kv.1 ≠ k) :
    lookupKey (mergeTile t other) k = lookupKey t k := by
  induction other generalizing t with
  | nil => rfl
  | cons kv rest ih =>
    rw [mergeTile_cons, ih _ (fun kv' hm => h kv' (by simp [hm]))]
    by_cases hk : kv.1 = "key"
    · rw [if_pos hk]
    · rw [if_neg hk]
      exact lookupKey_objInsert_ne t kv.1 k kv.2
        (Ne.symm (h kv (by simp)))

theorem mergeTile_lookup_mem (k : String) (v : α) (hk : k ≠ "key") :
    ∀ (other t : List (String × α)), (other.map Prod.fst).Nodup →
      lookupKey other k = some v → lookupKey (mergeTile t other) k = some v := by
  intro other
  induction other with
  | nil =>
    intro t _ hlk
    simp [lookupKey] at hlk
  | cons kv rest ih =>
    intro t hnd hlk
    simp only [List.map_cons, List.nodup_cons] at hnd
    rw [mergeTile_cons]
    by_cases hkv : kv.1 = k
    · have hv : v = kv.2 := by
        unfold lookupKey at hlk
        rw [if_pos hkv] at hlk
        exact (Option.some.inj hlk).symm
      have hnot : ∀ kv' ∈ rest, kv'.1 ≠ k := by
        intro kv' hmem hcon
        exact hnd.1 (List.mem_map.mpr ⟨kv', hmem, hcon.trans hkv.symm⟩)
      rw [mergeTile_lookup_not_mem k _ rest hnot,
        if_neg (show ¬kv.1 = "key" by rw [hkv]; exact hk), hkv,
        lookupKey_objInsert_self, hv]
    · have hlk' : lookupKey rest k = some v := by
        unfold lookupKey at hlk
        rw [if_neg hkv] at hlk
        exact hlk
      exact ih _ hnd.2 hlk'

/-- C10: `Tile.merge` copies every own enumerable property of `other` except
the one named `key` onto the tile, leaves the tile's `key` unchanged, and
returns the (mutated-in-place) tile itself — modelled as returning the updated
property map. -/
theorem tile_merge_spec (α : Type) (t other : List (String × α))
    (hnd : (other.map Prod.fst).Nodup) :
    lookupKey (mergeTile t other) "key" = lookupKey t "key" ∧
    (∀ k v, k ≠ "key" → lookupKey other k = some v →
      lookupKey (mergeTile t other) k = some v) :=
  ⟨mergeTile_lookup_key t other,
    fun k v hk hlk => mergeTile_lookup_mem k v hk other t hnd hlk⟩

/-- Witness for C10 at concrete property maps: `x` is copied, `key` is not. -/
theorem tile_merge_spec_witness :
    lookupKey (mergeTile [("key", 1), ("x", 2)] [("key", 9), ("x", 7)]) "key" =
      lookupKey [("key", 1), ("x", 2)] "key" ∧
    lookupKey (mergeTile [("key", 1), ("x", 2)] [("key", 9), ("x", 7)]) "x" =
      some 7 :=
  ⟨(tile_merge_spec Nat [("key", 1), ("x", 2)] [("key", 9), ("x", 7)]
      (by decide)).1,
    (tile_merge_spec Nat [("key", 1), ("x", 2)] [("key", 9), ("x", 7)]
      (by decide)).2 "x" 7 (by decide) (by decide)⟩

end Tangram
